import Mathlib

/-!
Shallow embedding of the PostgreSQL quorum-commit topology discoverer
(`storages/postgres/detail/quorum_commit.cpp`): the `synchronous_standby_names`
parser (`ConsumeToken`, `ParseSize`, `ParseSyncStandbyNames`), the per-host
probe `RunCheck`, and the aggregation/publication part of `RunDiscovery`.
Strings are embedded as `List Char`; machine `size_t` arithmetic is `Nat`
with explicit reduction modulo `2 ^ 64`.
-/

namespace QuorumCommit

/-- The separator set `kSep = " ,()\""` of `ConsumeToken`. -/
def isSep (c : Char) : Bool :=
  c == ' ' || c == ',' || c == '(' || c == ')' || c == '"'

/-- The function `ConsumeToken(std::string_view& sv)`: skip leading separators; if nothing
remains the token is empty and `sv` is left unchanged; otherwise the token is
the maximal non-separator run and `sv` keeps everything from the following
separator on (empty when the token ran to the end of the input).
Returns `(token, sv-after-call)`. -/
def consumeToken (sv : List Char) : List Char × List Char :=
  let s := sv.dropWhile (fun c => isSep c)
  if s = [] then ([], sv)
  else (s.takeWhile (fun c => !isSep c), s.dropWhile (fun c => !isSep c))

/-- One step of `ParseSize`: `result *= 10; result += c - '0'` on a wrapping
64-bit `size_t`. -/
def parseSizeAux : Nat → List Char → Nat
  | acc, [] => acc
  | acc, c :: cs =>
    if c < '0' || '9' < c then acc
    else parseSizeAux ((acc * 10 + (c.toNat - 48)) % 2 ^ 64) cs

/-- The function `ParseSize(std::string_view token)`: value of the leading decimal digits,
the first non-digit ends the number. -/
def parseSize (token : List Char) : Nat := parseSizeAux 0 token

/-- Modelled from the spec: `utils::StrIcaseEqual` (its implementation is not
under `src/`) — ASCII case-insensitive character lowering. -/
def lowerChar (c : Char) : Char :=
  if 65 ≤ c.toNat ∧ c.toNat ≤ 90 then Char.ofNat (c.toNat + 32) else c

/-- Modelled from the spec: `utils::StrIcaseEqual{}(a, b)` — ASCII
case-insensitive equality of two strings. -/
def strIcaseEq (a b : List Char) : Bool :=
  a.map lowerChar == b.map lowerChar

/-- The `kQuorumKeyword` constant `"ANY"`. -/
def kQuorumKeyword : List Char := "ANY".data

/-- The `kMultiKeyword` constant `"FIRST"`. -/
def kMultiKeyword : List Char := "FIRST".data

/-- The `while (num_sync--) { names.emplace_back(token); token = ConsumeToken(value); }`
loop of `ParseSyncStandbyNames`: push the token in hand, then fetch the next. -/
def pushLoop : Nat → List Char → List Char → List (List Char)
  | 0, _, _ => []
  | n + 1, tok, value =>
    tok :: (let p := consumeToken value; pushLoop n p.1 p.2)

/-- The name-collection loop entered right after `token = ConsumeToken(value)`
(the bounded branch of `ParseSyncStandbyNames`). -/
def pushLoopStart (n : Nat) (value : List Char) : List (List Char) :=
  let p := consumeToken value
  pushLoop n p.1 p.2

/-- The function `ParseSyncStandbyNames(std::string_view value)`.
Control flow mirrors the source: `ANY` first token keeps `num_sync = 0`;
a non-empty first token optionally consumes an extra token after `FIRST`;
a `'('` anywhere in the remaining input selects the bounded form with
`num_sync = ParseSize(token)` and a fresh token; otherwise `num_sync = 1`
and the token in hand is the single name. -/
def parseSyncStandbyNames (value : List Char) : List (List Char) :=
  let p1 := consumeToken value
  if strIcaseEq p1.1 kQuorumKeyword then []
  else if p1.1 = [] then []
  else
    let p2 := if strIcaseEq p1.1 kMultiKeyword then consumeToken p1.2 else p1
    if p2.2.contains '(' then pushLoopStart (parseSize p2.1) p2.2
    else [p2.1]

example : parseSyncStandbyNames "ANY 2 (host_a, host_b, host_c)".data = [] := by decide

example : parseSyncStandbyNames "FIRST 2 (host_a, host_b, host_c)".data
    = ["host_a".data, "host_b".data] := by decide

example : parseSyncStandbyNames "2 (host_a, host_b, host_c)".data
    = ["host_a".data, "host_b".data] := by decide

example : parseSyncStandbyNames "host_solo".data = ["host_solo".data] := by decide

example : parseSyncStandbyNames "".data = [] := by decide

example : parseSyncStandbyNames "first, foo".data = ["foo".data] := by decide

example : parseSyncStandbyNames "first".data = [[]] := by decide

example : parseSyncStandbyNames "FIRST 3 (a)".data = ["a".data, [], []] := by decide

/-! ## Host states and the aggregation part of `RunDiscovery` -/

/-- The enumeration `ClusterHostType`. -/
inductive ClusterHostType where
  | kNone
  | kMaster
  | kSlave
  | kSyncSlave
  deriving DecidableEq, Repr

open ClusterHostType

/-- The sentinel `kUnknownRtt = std::chrono::microseconds(-1)`. -/
def kUnknownRtt : Int := -1

/-- The structure `HostState` (the probe-owned slot).  `connection` models presence of the
`std::unique_ptr<Connection>`; `roundtrip_time` is in microseconds. -/
structure HostState where
  app_name : List Char
  connection : Bool
  role : ClusterHostType
  roundtrip_time : Int
  detected_sync_slaves : List (List Char)
  deriving DecidableEq, Repr

/-- A freshly constructed `HostState` (no connection, `kNone`, `kUnknownRtt`,
no sync slaves); also the out-of-range default for indexed access. -/
def initialHostState (app : List Char) : HostState :=
  { app_name := app
    connection := false
    role := kNone
    roundtrip_time := kUnknownRtt
    detected_sync_slaves := [] }

/-- Role of host `i` in a state array (out-of-range reads give `kNone`). -/
def roleAt (states : List HostState) (i : Nat) : ClusterHostType :=
  (states.getD i (initialHostState [])).role

/-- The `roundtrip_time` of host `i`. -/
def rttAt (states : List HostState) (i : Nat) : Int :=
  (states.getD i (initialHostState [])).roundtrip_time

/-- The `app_name` of host `i`. -/
def appAt (states : List HostState) (i : Nat) : List Char :=
  (states.getD i (initialHostState [])).app_name

/-- The `alive_dsn_indices` list built by `RunDiscovery` before the sync-slave
pass: indices with `role != ClusterHostType::kNone`, in index order. -/
def aliveIndices (states : List HostState) : List Nat :=
  (List.range states.length).filter (fun i => roleAt states i != kNone)

/-- The `std::find_if` locating the first host whose role is `kMaster`. -/
def findMaster (states : List HostState) : Option HostState :=
  states.find? (fun s => s.role == kMaster)

/-- The sync-slave promotion pass of `RunDiscovery`: if a master was found and
its `detected_sync_slaves` is non-empty, every alive host whose `app_name`
case-insensitively equals one of those names gets `role = kSyncSlave`.
(The C++ double loop mutates roles in place; since matching reads only the
immutable `app_name` and the master's list is never written, it equals this
one-pass map over the pre-pass states.) -/
def promoteSyncSlaves (states : List HostState) : List HostState :=
  match findMaster states with
  | none => states
  | some m =>
    if m.detected_sync_slaves.isEmpty then states
    else
      states.map fun s =>
        if s.role != kNone
            && m.detected_sync_slaves.any (fun nm => strIcaseEq s.app_name nm)
        then { s with role := kSyncSlave }
        else s

/-- Postcondition of
`std::sort(alive.begin(), alive.end(), [](l, r) { return rtt l < rtt r; })`
run after the promotion pass: the output is a permutation of the alive indices
and no adjacent pair is inverted under the strict comparator.  `std::sort`
gives no stability guarantee, so the embedding is relational: any output
satisfying this predicate is a possible published `alive_dsn_indices`. -/
def DiscoverySortSpec (states : List HostState) (out : List Nat) : Prop :=
  out.Perm (aliveIndices states) ∧
    out.Chain' (fun a b =>
      ¬ rttAt (promoteSyncSlaves states) b < rttAt (promoteSyncSlaves states) a)

/-- The `dsn_indices_by_type` loop: walk the sorted alive list, append each
index to its role's bucket, and additionally append `kSyncSlave` indices to
the `kSlave` bucket. -/
def dsnIndicesByType (pstates : List HostState) :
    List Nat → ClusterHostType → List Nat
  | [], _ => []
  | i :: rest, r =>
    (if roleAt pstates i = r ∨ (roleAt pstates i = kSyncSlave ∧ r = kSlave)
     then [i] else [])
      ++ dsnIndicesByType pstates rest r

/-! ## The `RunCheck` probe

`RunCheck` talks to the external connection layer; its behaviour on one probe
is determined by the outcomes of the three potentially-throwing calls, which
we pass in as a `ProbeWorld`.  Exceptions are two kinds: `ConnectionError`
(the only class the C++ code catches) and everything else. -/

/-- Exception classes relevant to `RunCheck`'s `catch` clauses. -/
inductive CppExc where
  | connectionError
  | otherError
  deriving DecidableEq, Repr

/-- The constant `kCheckTimeout = std::chrono::seconds(1)`, in microseconds. -/
def kCheckTimeoutUsec : Int := 1000000

/-- One call made by `RunCheck` to the connection layer, recording which
deadline argument (microsecond budget) was passed, if any.
`Connection::Connect` receives no probe deadline (only `conn_settings_`);
`CheckReadOnly(deadline)` receives the probe deadline; the
`SHOW synchronous_standby_names` `Execute` receives no deadline argument. -/
inductive CallRec where
  | connect
  | checkReadOnly (deadline : Option Int)
  | executeShow (deadline : Option Int)
  deriving DecidableEq, Repr

/-- Outcomes of the external calls during one probe of one host:
`connectRes` for `Connection::Connect` (consulted only when no connection is
cached), `checkRoRes` for `CheckReadOnly`, `roRtt` for the measured
steady-clock round trip, and `showRes` for
`Execute("SHOW synchronous_standby_names")` + `AsSingleRow<std::string>()`
combined (consulted only on a master). -/
structure ProbeWorld where
  connectRes : Except CppExc Unit
  checkRoRes : Except CppExc Bool
  roRtt : Int
  showRes : Except CppExc (List Char)

/-- Result of one `RunCheck`: the updated `HostState`, the exception escaping
`RunCheck` (rethrown by `tasks[i].Get()` in `RunDiscovery`), if any, and the
trace of calls into the connection layer. -/
structure CheckResult where
  state : HostState
  thrown : Option CppExc
  calls : List CallRec
  deriving DecidableEq, Repr

/-- The `role_check_guard` body: `connection.reset(); role = kNone;
roundtrip_time = kUnknownRtt; detected_sync_slaves.clear();`. -/
def resetState (st : HostState) : HostState :=
  { st with
    connection := false
    role := kNone
    roundtrip_time := kUnknownRtt
    detected_sync_slaves := [] }

/-- The part of `RunCheck` after a connection is ensured (`st.connection` is
true here): the guarded `try` block with `CheckReadOnly`, the rtt measurement,
the master-only `SHOW` query, and `role_check_guard.Release()` on success.
Only `ConnectionError` is caught; any other exception unwinds (the guard
still resets the state) and escapes `RunCheck`.  `c0` is the call trace so
far. -/
def runCheckConnected (st : HostState) (w : ProbeWorld) (c0 : List CallRec) :
    CheckResult :=
  match w.checkRoRes with
  | .error e =>
    { state := resetState st
      thrown := if e = .connectionError then none else some e
      calls := c0 ++ [.checkReadOnly (some kCheckTimeoutUsec)] }
  | .ok ro =>
    let st1 := { st with
      role := if ro then kSlave else kMaster
      roundtrip_time := w.roRtt }
    if ro then
      { state := st1
        thrown := none
        calls := c0 ++ [.checkReadOnly (some kCheckTimeoutUsec)] }
    else
      match w.showRes with
      | .error e =>
        { state := resetState st
          thrown := if e = .connectionError then none else some e
          calls := c0 ++ [.checkReadOnly (some kCheckTimeoutUsec),
                          .executeShow none] }
      | .ok names =>
        { state := { st1 with
            detected_sync_slaves := parseSyncStandbyNames names }
          thrown := none
          calls := c0 ++ [.checkReadOnly (some kCheckTimeoutUsec),
                          .executeShow none] }

/-- The operation `QuorumCommitTopology::Impl::RunCheck` for one host: ensure a connection
(catching only `ConnectionError`, which logs and returns, firing the reset
guard), then run the guarded probe. -/
def runCheck (st : HostState) (w : ProbeWorld) : CheckResult :=
  if st.connection then runCheckConnected st w []
  else
    match w.connectRes with
    | .error e =>
      { state := resetState st
        thrown := if e = .connectionError then none else some e
        calls := [.connect] }
    | .ok _ => runCheckConnected { st with connection := true } w [.connect]

/-! ## Tokenizer lemmas -/

/-- A usable standby name: non-empty and free of separator characters. -/
def goodName (nm : List Char) : Prop :=
  nm ≠ [] ∧ ∀ c ∈ nm, isSep c = false

instance (nm : List Char) : Decidable (goodName nm) := by
  unfold goodName
  infer_instance

/-- A residual input that starts with a separator (or is exhausted). -/
def sepHeaded : List Char → Prop
  | [] => True
  | c :: _ => isSep c = true

/-- An intersperse-style rendering of a name list, each name followed by a
comma; a canonical well-formed `name [, ...]` body. -/
def joinNames (names : List (List Char)) : List Char :=
  names.foldr (fun nm acc => nm ++ ',' :: acc) []

theorem dropWhile_append_all {p : Char → Bool} :
    ∀ {a b : List Char}, (∀ c ∈ a, p c = true) →
      (a ++ b).dropWhile p = b.dropWhile p
  | [], _, _ => rfl
  | c :: a, b, h => by
    have hc : p c = true := h c (List.mem_cons_self _ _)
    simp only [List.cons_append, List.dropWhile_cons, hc, if_true]
    exact dropWhile_append_all fun x hx => h x (List.mem_cons_of_mem _ hx)

theorem takeWhile_append_all {p : Char → Bool} :
    ∀ {a b : List Char}, (∀ c ∈ a, p c = true) →
      (a ++ b).takeWhile p = a ++ b.takeWhile p
  | [], _, _ => rfl
  | c :: a, b, h => by
    have hc : p c = true := h c (List.mem_cons_self _ _)
    simp only [List.cons_append, List.takeWhile_cons, hc, if_true]
    simp [takeWhile_append_all fun x hx => h x (List.mem_cons_of_mem _ hx)]

theorem takeWhile_nonsep_eq :
    ∀ {nm rest : List Char}, (∀ c ∈ nm, isSep c = false) → sepHeaded rest →
      (nm ++ rest).takeWhile (fun c => !isSep c) = nm
  | [], [], _, _ => rfl
  | [], c :: _, _, hr => by
    simp only [List.nil_append, List.takeWhile_cons]
    simp [sepHeaded] at hr
    simp [hr]
  | c :: nm, rest, h, hr => by
    have hc : isSep c = false := h c (List.mem_cons_self _ _)
    simp only [List.cons_append, List.takeWhile_cons, hc]
    simp [takeWhile_nonsep_eq (fun x hx => h x (List.mem_cons_of_mem _ hx)) hr]

theorem dropWhile_nonsep_eq :
    ∀ {nm rest : List Char}, (∀ c ∈ nm, isSep c = false) → sepHeaded rest →
      (nm ++ rest).dropWhile (fun c => !isSep c) = rest
  | [], [], _, _ => rfl
  | [], c :: _, _, hr => by
    simp only [List.nil_append, List.dropWhile_cons]
    simp [sepHeaded] at hr
    simp [hr]
  | c :: nm, rest, h, hr => by
    have hc : isSep c = false := h c (List.mem_cons_self _ _)
    simp only [List.cons_append, List.dropWhile_cons, hc]
    simp [dropWhile_nonsep_eq (fun x hx => h x (List.mem_cons_of_mem _ hx)) hr]

/-- Running `ConsumeToken` on a well-formed input: leading separators, then a
name, then a separator-headed remainder — the call returns the name and
leaves exactly the remainder. -/
theorem consumeToken_eq (seps nm rest : List Char)
    (hs : ∀ c ∈ seps, isSep c = true) (h1 : nm ≠ [])
    (h2 : ∀ c ∈ nm, isSep c = false) (h3 : sepHeaded rest) :
    consumeToken (seps ++ nm ++ rest) = (nm, rest) := by
  have hdrop : (seps ++ nm ++ rest).dropWhile (fun c => isSep c) = nm ++ rest := by
    rw [List.append_assoc, dropWhile_append_all hs]
    cases nm with
    | nil => exact absurd rfl h1
    | cons c nm' =>
      have hc : isSep c = false := h2 c (by simp)
      simp [List.dropWhile_cons, hc]
  have hne : nm ++ rest ≠ [] := by
    cases nm with
    | nil => exact absurd rfl h1
    | cons c nm' => simp
  simp only [consumeToken, hdrop, hne, if_false, reduceIte,
    takeWhile_nonsep_eq h2 h3, dropWhile_nonsep_eq h2 h3]

/-- The first character surviving `dropWhile isSep` is not a separator. -/
theorem head_dropWhile_not_sep :
    ∀ {v c : List Char} {x : Char} (_ : v.dropWhile (fun c => isSep c) = x :: c),
      isSep x = false
  | [], _, _, h => by simp at h
  | a :: v, c, x, h => by
    by_cases ha : isSep a = true
    · rw [List.dropWhile_cons_of_pos ha] at h
      exact head_dropWhile_not_sep h
    · rw [List.dropWhile_cons_of_neg ha] at h
      cases h
      simpa using ha

/-- If `ConsumeToken` returns the empty token, the input was exhausted (all
separators) and is left unchanged — so the empty token repeats forever. -/
theorem consumeToken_fix {v : List Char} (h : (consumeToken v).1 = []) :
    consumeToken v = ([], v) := by
  by_cases hd : v.dropWhile (fun c => isSep c) = []
  · simp [consumeToken, hd]
  · exfalso
    obtain ⟨x, s', hx⟩ : ∃ x s', v.dropWhile (fun c => isSep c) = x :: s' := by
      cases hv : v.dropWhile (fun c => isSep c) with
      | nil => exact absurd hv hd
      | cons x s' => exact ⟨x, s', rfl⟩
    have hxs : isSep x = false := head_dropWhile_not_sep hx
    rw [consumeToken, hx] at h
    simp [List.takeWhile_cons, hxs] at h

theorem pushLoop_length : ∀ (n : Nat) (t v : List Char),
    (pushLoop n t v).length = n
  | 0, _, _ => rfl
  | n + 1, t, v => by simp [pushLoop, pushLoop_length n]

theorem pushLoop_replicate {v : List Char} (h : consumeToken v = ([], v)) :
    ∀ n, pushLoop n [] v = List.replicate n []
  | 0 => rfl
  | n + 1 => by simp [pushLoop, h, pushLoop_replicate h n, List.replicate_succ]

/-- Decomposition of the collection loop: some genuinely consumed (non-empty)
tokens followed by empty-string padding. -/
theorem pushLoop_decomp : ∀ (n : Nat) (t v : List Char),
    (t = [] → consumeToken v = ([], v)) →
    ∃ real : List (List Char), (∀ x ∈ real, x ≠ []) ∧ real.length ≤ n ∧
      pushLoop n t v = real ++ List.replicate (n - real.length) []
  | 0, t, v, _ => ⟨[], by simp, by simp, by simp [pushLoop]⟩
  | n + 1, t, v, h => by
    by_cases ht : t = []
    · subst ht
      exact ⟨[], by simp, by simp,
        by simp [pushLoop_replicate (h rfl) (n + 1)]⟩
    · have hnext : (consumeToken v).1 = [] →
          consumeToken (consumeToken v).2 = ([], (consumeToken v).2) := by
        intro h1
        have hfix := consumeToken_fix h1
        rw [hfix]
        exact hfix
      obtain ⟨real, hne, hlen, heq⟩ :=
        pushLoop_decomp n (consumeToken v).1 (consumeToken v).2 hnext
      refine ⟨t :: real, ?_, by simpa using hlen, ?_⟩
      · intro x hx
        rw [List.mem_cons] at hx
        rcases hx with rfl | hx
        · exact ht
        · exact hne x hx
      · simp [pushLoop, heq]

theorem joinNames_cons (nm : List Char) (names : List (List Char)) :
    joinNames (nm :: names) = nm ++ ',' :: joinNames names := rfl

/-- Consuming the names of a comma-joined body (behind any separator prefix,
with a closing paren after it) yields the first `n` names. -/
theorem pushLoopStart_join :
    ∀ (names : List (List Char)) (seps : List Char) (n : Nat),
      (∀ nm ∈ names, goodName nm) → n ≤ names.length →
      (∀ c ∈ seps, isSep c = true) →
      pushLoopStart n (seps ++ joinNames names ++ [')']) = names.take n
  | [], seps, n, _, hn, _ => by
    have hn0 : n = 0 := Nat.le_zero.mp (by simpa using hn)
    subst hn0
    simp [pushLoopStart, pushLoop]
  | nm :: names, seps, n, h, hn, hs => by
    have hnm : goodName nm := h nm (List.mem_cons_self _ _)
    have hrest : ∀ x ∈ names, goodName x :=
      fun x hx => h x (List.mem_cons_of_mem _ hx)
    have hjoin : seps ++ joinNames (nm :: names) ++ [')']
        = seps ++ nm ++ (',' :: (joinNames names ++ [')'])) := by
      simp [joinNames_cons]
    have hcons : consumeToken (seps ++ joinNames (nm :: names) ++ [')'])
        = (nm, ',' :: (joinNames names ++ [')'])) := by
      rw [hjoin]
      exact consumeToken_eq _ _ _ hs hnm.1 hnm.2 (by simp [sepHeaded, isSep])
    cases n with
    | zero => simp [pushLoopStart, pushLoop]
    | succ k =>
      have hk : k ≤ names.length := by simpa using hn
      have ih := pushLoopStart_join names [','] k hrest hk
        (by simp [isSep])
      simp only [pushLoopStart, List.cons_append, List.nil_append,
        List.singleton_append] at ih
      simp only [pushLoopStart, hcons, pushLoop]
      simp [List.take_succ_cons, ih]

/-! ## Digit and keyword lemmas -/

/-- ASCII decimal digit (`'0' ≤ c && c ≤ '9'`). -/
def isDigitCh (c : Char) : Prop := 48 ≤ c.toNat ∧ c.toNat ≤ 57

instance (c : Char) : Decidable (isDigitCh c) := by
  unfold isDigitCh
  infer_instance

theorem digit_not_sep {c : Char} (h : isDigitCh c) : isSep c = false := by
  obtain ⟨hl, hr⟩ := h
  have h1 : c ≠ ' ' := by rintro rfl; revert hl hr; decide
  have h2 : c ≠ ',' := by rintro rfl; revert hl hr; decide
  have h3 : c ≠ '(' := by rintro rfl; revert hl hr; decide
  have h4 : c ≠ ')' := by rintro rfl; revert hl hr; decide
  have h5 : c ≠ '"' := by rintro rfl; revert hl hr; decide
  simp [isSep, beq_eq_false_iff_ne, h1, h2, h3, h4, h5]

theorem digit_lower {c : Char} (h : isDigitCh c) : lowerChar c = c := by
  obtain ⟨hl, hr⟩ := h
  simp only [lowerChar]
  rw [if_neg]
  omega

theorem strIcaseEq_head {c d : Char} {r br : List Char}
    (h : strIcaseEq (c :: r) (d :: br) = true) : lowerChar c = lowerChar d := by
  simp only [strIcaseEq, List.map_cons] at h
  have h' := eq_of_beq h
  injection h'

/-- A non-empty all-digit token is case-insensitively distinct from both
keywords. -/
theorem digit_token_not_kw {numTok : List Char} (hne : numTok ≠ [])
    (hd : ∀ c ∈ numTok, isDigitCh c) :
    strIcaseEq numTok kQuorumKeyword = false ∧
      strIcaseEq numTok kMultiKeyword = false := by
  obtain ⟨c, rest, rfl⟩ : ∃ c rest, numTok = c :: rest := by
    cases numTok with
    | nil => exact absurd rfl hne
    | cons c rest => exact ⟨c, rest, rfl⟩
  have hc := hd c (List.mem_cons_self _ _)
  have hlc := digit_lower hc
  constructor
  · by_contra hb
    have hb' : strIcaseEq (c :: rest) ('A' :: "NY".data) = true := by
      have hk : kQuorumKeyword = 'A' :: "NY".data := by decide
      rw [← hk]
      simpa using hb
    have h1 := strIcaseEq_head hb'
    rw [hlc] at h1
    have hca : c = 'a' := by rw [h1]; decide
    rw [hca] at hc
    revert hc
    decide
  · by_contra hb
    have hb' : strIcaseEq (c :: rest) ('F' :: "IRST".data) = true := by
      have hk : kMultiKeyword = 'F' :: "IRST".data := by decide
      rw [← hk]
      simpa using hb
    have h1 := strIcaseEq_head hb'
    rw [hlc] at h1
    have hca : c = 'f' := by rw [h1]; decide
    rw [hca] at hc
    revert hc
    decide

/-- A comma-joined body of separator-free names contains no `'('`. -/
theorem contains_paren_join {names : List (List Char)}
    (h : ∀ x ∈ names, ∀ c ∈ x, isSep c = false) :
    (joinNames names).contains '(' = false := by
  induction names with
  | nil => rfl
  | cons nm rest ih =>
    by_cases hb : (joinNames (nm :: rest)).contains '(' = true
    · exfalso
      have hp : '(' ∈ joinNames (nm :: rest) := List.mem_of_elem_eq_true hb
      rw [joinNames_cons] at hp
      rcases List.mem_append.mp hp with hp | hp
      · have := h nm (List.mem_cons_self _ _) '(' hp
        simp [isSep] at this
      · rw [List.mem_cons] at hp
        rcases hp with hp | hp
        · exact absurd hp (by decide)
        · have hb2 : (joinNames rest).contains '(' = true :=
            List.elem_eq_true_of_mem hp
          have hfalse := ih fun x hx => h x (List.mem_cons_of_mem _ hx)
          rw [hfalse] at hb2
          cases hb2
    · exact Bool.eq_false_iff.mpr hb

/-! ## Parse behaviour on each grammar form -/

theorem parse_any {v : List Char}
    (h : strIcaseEq (consumeToken v).1 kQuorumKeyword = true) :
    parseSyncStandbyNames v = [] := by
  simp [parseSyncStandbyNames, h]

theorem parse_empty : parseSyncStandbyNames [] = [] := by decide

/-- The `FIRST num_sync ( names )` form on a canonical rendering. -/
theorem parse_first_paren {numTok : List Char} {names : List (List Char)}
    (hne : numTok ≠ []) (hd : ∀ c ∈ numTok, isDigitCh c)
    (hnames : ∀ nm ∈ names, goodName nm)
    (hn : parseSize numTok ≤ names.length) :
    parseSyncStandbyNames
        (kMultiKeyword ++ ' ' :: (numTok ++ '(' :: (joinNames names ++ [')'])))
      = names.take (parseSize numTok) := by
  have hdig : ∀ c ∈ numTok, isSep c = false := fun c hc => digit_not_sep (hd c hc)
  have h1 : consumeToken
      (kMultiKeyword ++ ' ' :: (numTok ++ '(' :: (joinNames names ++ [')'])))
      = (kMultiKeyword, ' ' :: (numTok ++ '(' :: (joinNames names ++ [')']))) := by
    have := consumeToken_eq [] kMultiKeyword
      (' ' :: (numTok ++ '(' :: (joinNames names ++ [')'])))
      (by simp) (by decide) (by decide) (by simp [sepHeaded, isSep])
    simpa using this
  have h2 : consumeToken (' ' :: (numTok ++ '(' :: (joinNames names ++ [')'])))
      = (numTok, '(' :: (joinNames names ++ [')'])) := by
    have := consumeToken_eq [' '] numTok
      ('(' :: (joinNames names ++ [')']))
      (by simp [isSep]) hne hdig (by simp [sepHeaded, isSep])
    simpa using this
  have hloop := pushLoopStart_join names ['('] (parseSize numTok) hnames hn
    (by simp [isSep])
  simp only [List.cons_append, List.nil_append] at hloop
  simp [parseSyncStandbyNames, h1, h2, hloop,
    show strIcaseEq kMultiKeyword kQuorumKeyword = false by decide,
    show strIcaseEq kMultiKeyword kMultiKeyword = true by decide,
    show kMultiKeyword ≠ ([] : List Char) by decide,
    List.contains_cons]

/-- The `num_sync ( names )` form (implicit `FIRST`) on a canonical
rendering. -/
theorem parse_num_paren {numTok : List Char} {names : List (List Char)}
    (hne : numTok ≠ []) (hd : ∀ c ∈ numTok, isDigitCh c)
    (hnames : ∀ nm ∈ names, goodName nm)
    (hn : parseSize numTok ≤ names.length) :
    parseSyncStandbyNames (numTok ++ '(' :: (joinNames names ++ [')']))
      = names.take (parseSize numTok) := by
  have hdig : ∀ c ∈ numTok, isSep c = false := fun c hc => digit_not_sep (hd c hc)
  obtain ⟨hA, hF⟩ := digit_token_not_kw hne hd
  have h1 : consumeToken (numTok ++ '(' :: (joinNames names ++ [')']))
      = (numTok, '(' :: (joinNames names ++ [')'])) := by
    have := consumeToken_eq [] numTok
      ('(' :: (joinNames names ++ [')']))
      (by simp) hne hdig (by simp [sepHeaded, isSep])
    simpa using this
  have hloop := pushLoopStart_join names ['('] (parseSize numTok) hnames hn
    (by simp [isSep])
  simp only [List.cons_append, List.nil_append] at hloop
  simp [parseSyncStandbyNames, h1, hA, hF, hne, hloop, List.contains_cons]

/-- The bare `name [, ...]` form (no parentheses, first name not a keyword)
on a canonical rendering. -/
theorem parse_bare {nm : List Char} {names : List (List Char)}
    (hnm : goodName nm) (hall : ∀ x ∈ names, goodName x)
    (hA : strIcaseEq nm kQuorumKeyword = false)
    (hF : strIcaseEq nm kMultiKeyword = false) :
    parseSyncStandbyNames (joinNames (nm :: names)) = [nm] := by
  have h1 : consumeToken (joinNames (nm :: names))
      = (nm, ',' :: joinNames names) := by
    have := consumeToken_eq [] nm
      (',' :: joinNames names)
      (by simp) hnm.1 hnm.2 (by simp [sepHeaded, isSep])
    simpa [joinNames_cons] using this
  have hnotmem : '(' ∉ joinNames names := by
    intro hp
    have hb := List.elem_eq_true_of_mem hp
    have hfalse := contains_paren_join fun x hx => (hall x hx).2
    exact absurd (hb.symm.trans hfalse) (by decide)
  simp [parseSyncStandbyNames, h1, hA, hF, hnm.1, List.contains_cons, hnotmem]

/-- The token/value state of `ParseSyncStandbyNames` right before the
parenthesis test: the first token, with one more token consumed when the
first was `FIRST`. -/
def boundedTok (v : List Char) : List Char × List Char :=
  let p1 := consumeToken v
  if strIcaseEq p1.1 kMultiKeyword then consumeToken p1.2 else p1

theorem consumeToken_snd_fix {v : List Char} (h : (consumeToken v).1 = []) :
    consumeToken (consumeToken v).2 = ([], (consumeToken v).2) := by
  have hfix := consumeToken_fix h
  rw [hfix]
  exact hfix

theorem parse_bounded_eq {v : List Char}
    (hA : strIcaseEq (consumeToken v).1 kQuorumKeyword = false)
    (hne : (consumeToken v).1 ≠ [])
    (hparen : (boundedTok v).2.contains '(' = true) :
    parseSyncStandbyNames v
      = pushLoopStart (parseSize (boundedTok v).1) (boundedTok v).2 := by
  have hmem : '(' ∈ (boundedTok v).2 := List.mem_of_elem_eq_true hparen
  simp only [boundedTok] at hmem ⊢
  simp [parseSyncStandbyNames, hA, hne, hmem]

/-! ## Claim C1 -/

/-- C1, counterexample: `"first, foo"` is a bare name list (no parentheses,
no count), yet the parser treats its first name as the `FIRST` keyword and
returns the *second* name, not the first. -/
theorem c1_counterexample :
    parseSyncStandbyNames "first, foo".data = ["foo".data] ∧
    parseSyncStandbyNames "first, foo".data ≠ ["first".data] ∧
    "first, foo".data.contains '(' = false := by decide

/-- C1 (amended): `ParseSyncStandbyNames` implements the grammar of spec
§4.1 with the bare-name-list case restricted to lists whose first name is not
case-insensitively `FIRST` (such a first name is consumed as the keyword):
(1) any input whose first token case-insensitively equals `ANY` yields the
empty sequence; (2) empty input yields the empty sequence; (3) on
`FIRST num_sync ( name [, ...] )` and on `num_sync ( name [, ...] )` with at
least `num_sync` names, the result is the first `num_sync` names; (4) a bare
name list with no parentheses, no count, and a non-keyword first name yields
exactly the first name. -/
theorem c1_grammar_amended :
    (∀ v : List Char, strIcaseEq (consumeToken v).1 kQuorumKeyword = true →
        parseSyncStandbyNames v = []) ∧
    parseSyncStandbyNames [] = [] ∧
    (∀ (numTok : List Char) (names : List (List Char)),
        numTok ≠ [] → (∀ c ∈ numTok, isDigitCh c) →
        (∀ nm ∈ names, goodName nm) → parseSize numTok ≤ names.length →
        parseSyncStandbyNames
            (kMultiKeyword ++ ' ' :: (numTok ++ '(' :: (joinNames names ++ [')'])))
          = names.take (parseSize numTok) ∧
        parseSyncStandbyNames (numTok ++ '(' :: (joinNames names ++ [')']))
          = names.take (parseSize numTok)) ∧
    (∀ (nm : List Char) (names : List (List Char)),
        goodName nm → (∀ x ∈ names, goodName x) →
        strIcaseEq nm kQuorumKeyword = false →
        strIcaseEq nm kMultiKeyword = false →
        parseSyncStandbyNames (joinNames (nm :: names)) = [nm]) :=
  ⟨fun _ h => parse_any h, parse_empty,
    fun _ _ h1 h2 h3 h4 =>
      ⟨parse_first_paren h1 h2 h3 h4, parse_num_paren h1 h2 h3 h4⟩,
    fun _ _ h1 h2 h3 h4 => parse_bare h1 h2 h3 h4⟩

/-- C1 witness: the amended grammar theorem instantiated on the spec's
scenarios S1–S5 (S2/S3 via the canonical rendering of
`FIRST 2 (host_a, host_b)` and `2 (host_a, host_b)`). -/
theorem c1_grammar_amended_witness :
    parseSyncStandbyNames "ANY 2 (host_a, host_b, host_c)".data = [] ∧
    parseSyncStandbyNames [] = [] ∧
    parseSyncStandbyNames
        (kMultiKeyword ++ ' ' :: ("2".data ++ '(' ::
          (joinNames ["host_a".data, "host_b".data, "host_c".data] ++ [')'])))
      = ["host_a".data, "host_b".data] ∧
    parseSyncStandbyNames ("2".data ++ '(' ::
        (joinNames ["host_a".data, "host_b".data, "host_c".data] ++ [')']))
      = ["host_a".data, "host_b".data] ∧
    parseSyncStandbyNames (joinNames ["host_solo".data]) = ["host_solo".data] := by
  refine ⟨c1_grammar_amended.1 _ (by decide), c1_grammar_amended.2.1, ?_, ?_, ?_⟩
  · exact (c1_grammar_amended.2.2.1 "2".data
      ["host_a".data, "host_b".data, "host_c".data]
      (by decide) (by decide) (by decide) (by decide)).1.trans (by decide)
  · exact (c1_grammar_amended.2.2.1 "2".data
      ["host_a".data, "host_b".data, "host_c".data]
      (by decide) (by decide) (by decide) (by decide)).2.trans (by decide)
  · exact c1_grammar_amended.2.2.2 "host_solo".data []
      (by decide) (by decide) (by decide) (by decide)

/-! ## Claim C9 -/

/-- C9: on any bounded-form input — a `'('` occurs in the remaining input
after the (optional-`FIRST`-then-)count token — the result has length exactly
`ParseSize` of the count token, and consists of the actually consumed
(non-empty) name tokens followed by empty-string padding, never truncated. -/
theorem c9_bounded_length_padding (v : List Char)
    (hA : strIcaseEq (consumeToken v).1 kQuorumKeyword = false)
    (hne : (consumeToken v).1 ≠ [])
    (hparen : (boundedTok v).2.contains '(' = true) :
    (parseSyncStandbyNames v).length = parseSize (boundedTok v).1 ∧
    ∃ real : List (List Char), (∀ x ∈ real, x ≠ []) ∧
      real.length ≤ parseSize (boundedTok v).1 ∧
      parseSyncStandbyNames v
        = real ++ List.replicate (parseSize (boundedTok v).1 - real.length) [] := by
  rw [parse_bounded_eq hA hne hparen]
  constructor
  · simp [pushLoopStart, pushLoop_length]
  · exact pushLoop_decomp _ _ _ fun h1 => consumeToken_snd_fix h1

/-- C9 witness: `FIRST 3 (a)` has one name but count 3; the result is
`["a", "", ""]` — length exactly 3, padded with empty strings. -/
theorem c9_bounded_length_padding_witness :
    strIcaseEq (consumeToken "FIRST 3 (a)".data).1 kQuorumKeyword = false ∧
    (consumeToken "FIRST 3 (a)".data).1 ≠ [] ∧
    (boundedTok "FIRST 3 (a)".data).2.contains '(' = true ∧
    ((parseSyncStandbyNames "FIRST 3 (a)".data).length
        = parseSize (boundedTok "FIRST 3 (a)".data).1 ∧
      ∃ real : List (List Char), (∀ x ∈ real, x ≠ []) ∧
        real.length ≤ parseSize (boundedTok "FIRST 3 (a)".data).1 ∧
        parseSyncStandbyNames "FIRST 3 (a)".data
          = real ++ List.replicate
              (parseSize (boundedTok "FIRST 3 (a)".data).1 - real.length) []) :=
  ⟨by decide, by decide, by decide,
    c9_bounded_length_padding _ (by decide) (by decide) (by decide)⟩

/-! ## Aggregation lemmas -/

theorem getD_map_of_lt {α β : Type} {f : α → β} {l : List α} {i : Nat}
    (h : i < l.length) (d : α) (d' : β) :
    (l.map f).getD i d' = f (l.getD i d) := by
  rw [List.getD_eq_getElem?_getD, List.getElem?_map,
    List.getD_eq_getElem?_getD, List.getElem?_eq_getElem h]
  simp

theorem getD_default_of_le {α : Type} {l : List α} {i : Nat} (h : l.length ≤ i)
    (d : α) : l.getD i d = d := by
  rw [List.getD_eq_getElem?_getD, List.getElem?_eq_none h]
  rfl

theorem length_promote (states : List HostState) :
    (promoteSyncSlaves states).length = states.length := by
  cases hm : findMaster states with
  | none => simp [promoteSyncSlaves, hm]
  | some m =>
    by_cases h : m.detected_sync_slaves.isEmpty <;>
      simp [promoteSyncSlaves, hm, h]

theorem rttAt_promote (states : List HostState) (i : Nat) :
    rttAt (promoteSyncSlaves states) i = rttAt states i := by
  cases hm : findMaster states with
  | none => simp [promoteSyncSlaves, hm]
  | some m =>
    by_cases h : m.detected_sync_slaves.isEmpty
    · simp [promoteSyncSlaves, hm, h]
    · simp only [promoteSyncSlaves, hm]
      rw [if_neg h]
      by_cases hi : i < states.length
      · rw [rttAt, rttAt, getD_map_of_lt hi (initialHostState [])]
        split <;> rfl
      · rw [rttAt, rttAt, getD_default_of_le (by simpa using Nat.le_of_not_lt hi),
          getD_default_of_le (Nat.le_of_not_lt hi)]

/-- The promotion pass can only turn a role into `kSyncSlave`; every other
role value is preserved, and which branch applies depends only on the
original role and `app_name`. -/
theorem roleAt_promote_cases (states : List HostState) (i : Nat) :
    roleAt (promoteSyncSlaves states) i = roleAt states i ∨
      (roleAt (promoteSyncSlaves states) i = kSyncSlave ∧
        roleAt states i ≠ kNone) := by
  cases hm : findMaster states with
  | none => simp [promoteSyncSlaves, hm]
  | some m =>
    by_cases h : m.detected_sync_slaves.isEmpty
    · simp [promoteSyncSlaves, hm, h]
    · simp only [promoteSyncSlaves, hm]
      rw [if_neg h]
      by_cases hi : i < states.length
      · rw [roleAt, roleAt, getD_map_of_lt hi (initialHostState [])]
        split
        · rename_i hc
          refine Or.inr ⟨rfl, ?_⟩
          have hand := (Bool.and_eq_true _ _).mp hc
          simpa using hand.1
        · exact Or.inl rfl
      · rw [roleAt, roleAt, getD_default_of_le (by simpa using Nat.le_of_not_lt hi),
          getD_default_of_le (Nat.le_of_not_lt hi)]
        exact Or.inl rfl

theorem roleAt_promote_ne_none {states : List HostState} {i : Nat}
    (h : roleAt states i ≠ kNone) :
    roleAt (promoteSyncSlaves states) i ≠ kNone := by
  rcases roleAt_promote_cases states i with hc | ⟨hc, _⟩
  · rw [hc]; exact h
  · rw [hc]; exact fun hh => ClusterHostType.noConfusion hh

theorem roleAt_lt_length {states : List HostState} {i : Nat}
    (h : roleAt states i ≠ kNone) : i < states.length := by
  by_contra hi
  rw [roleAt, getD_default_of_le (Nat.le_of_not_lt hi)] at h
  exact h rfl

theorem mem_aliveIndices {states : List HostState} {i : Nat} :
    i ∈ aliveIndices states ↔ roleAt states i ≠ kNone := by
  unfold aliveIndices
  rw [List.mem_filter, List.mem_range]
  constructor
  · rintro ⟨-, h⟩
    simpa using h
  · intro h
    exact ⟨roleAt_lt_length h, by simpa using h⟩

theorem nodup_aliveIndices (states : List HostState) :
    (aliveIndices states).Nodup :=
  (List.nodup_range _).filter _

/-- Any `std::sort`-compliant output is pairwise sorted by non-decreasing
rtt (of the original states; promotion does not touch rtt). -/
theorem sortSpec_pairwise {states : List HostState} {out : List Nat}
    (h : DiscoverySortSpec states out) :
    out.Pairwise (fun a b => rttAt states a ≤ rttAt states b) := by
  have hchain : out.Chain' (fun a b => rttAt states a ≤ rttAt states b) := by
    refine h.2.imp ?_
    intro a b hab
    rw [rttAt_promote, rttAt_promote] at hab
    exact Int.not_lt.mp hab
  haveI : IsTrans Nat (fun a b => rttAt states a ≤ rttAt states b) :=
    ⟨fun _ _ _ hab hbc => le_trans hab hbc⟩
  exact List.chain'_iff_pairwise.mp hchain

/-- Every bucket of `dsn_indices_by_type` is a sublist of the sorted alive
list it was built from. -/
theorem dsnIndicesByType_sublist (pstates : List HostState) (r : ClusterHostType) :
    ∀ l : List Nat, (dsnIndicesByType pstates l r).Sublist l
  | [] => List.Sublist.refl _
  | i :: rest => by
    rw [dsnIndicesByType]
    split
    · exact (dsnIndicesByType_sublist pstates r rest).cons₂ i
    · exact (dsnIndicesByType_sublist pstates r rest).cons i

/-- Multiplicity of an index in a bucket: the full multiplicity from the
source list when the index belongs to the bucket, zero otherwise. -/
theorem dsnIndicesByType_count (pstates : List HostState) (r : ClusterHostType)
    (i : Nat) :
    ∀ l : List Nat, (dsnIndicesByType pstates l r).count i
      = if roleAt pstates i = r ∨ (roleAt pstates i = kSyncSlave ∧ r = kSlave)
        then l.count i else 0
  | [] => by
    rw [dsnIndicesByType]
    split <;> rfl
  | j :: rest => by
    rw [dsnIndicesByType, List.count_append,
      dsnIndicesByType_count pstates r i rest, List.count_cons]
    by_cases hij : j = i
    · subst hij
      split
      · rename_i hcond
        simp only [List.count_cons, if_pos hcond]
        simp
        omega
      · rename_i hcond
        simp [if_neg hcond]
    · have hji : (j == i) = false := by simp [hij]
      split
      · rename_i hcond
        simp [List.count_cons, hij]
      · rename_i hcond
        simp [hij]

/-! ## Claim C2 -/

/-- C2, counterexample: `RunDiscovery` uses `std::sort`, whose contract only
guarantees a comparator-sorted permutation.  For two alive hosts with equal
rtt, the output `[1, 0]` satisfies that contract, yet its equal-rtt indices
are in descending index order — the published list need not equal the stable
sort. -/
theorem c2_counterexample :
    DiscoverySortSpec
        [{ app_name := "a".data, connection := true, role := kSlave,
           roundtrip_time := 5, detected_sync_slaves := [] },
         { app_name := "b".data, connection := true, role := kSlave,
           roundtrip_time := 5, detected_sync_slaves := [] }]
        [1, 0] ∧
      ¬ List.Pairwise
        (fun a b =>
          rttAt [{ app_name := "a".data, connection := true, role := kSlave,
                   roundtrip_time := 5, detected_sync_slaves := [] },
                 { app_name := "b".data, connection := true, role := kSlave,
                   roundtrip_time := 5, detected_sync_slaves := [] }] a
            = rttAt [{ app_name := "a".data, connection := true, role := kSlave,
                       roundtrip_time := 5, detected_sync_slaves := [] },
                     { app_name := "b".data, connection := true, role := kSlave,
                       roundtrip_time := 5, detected_sync_slaves := [] }] b
          → a < b)
        [1, 0] := by
  refine ⟨⟨by decide, ?_⟩, by decide⟩
  simp only [List.chain'_cons, List.chain'_singleton, and_true]
  decide

/-- C2 (amended): every published `AliveByRtt` list is a permutation of the
alive indices and is sorted by non-decreasing rtt; the relative order of
equal-rtt indices is unspecified (the code uses `std::sort`, not a stable
sort). -/
theorem c2_alive_by_rtt_sorted :
    ∀ (states : List HostState) (out : List Nat),
      DiscoverySortSpec states out →
      out.Perm (aliveIndices states) ∧
        out.Pairwise (fun a b => rttAt states a ≤ rttAt states b) :=
  fun _ _ h => ⟨h.1, sortSpec_pairwise h⟩

/-- C2 witness: a two-host cluster with rtts 5 and 3; the sort output
`[1, 0]` is a permutation of the alive indices sorted by rtt. -/
theorem c2_alive_by_rtt_sorted_witness :
    DiscoverySortSpec
        [{ app_name := "a".data, connection := true, role := kSlave,
           roundtrip_time := 5, detected_sync_slaves := [] },
         { app_name := "b".data, connection := true, role := kMaster,
           roundtrip_time := 3, detected_sync_slaves := [] }]
        [1, 0] ∧
      ([1, 0].Perm (aliveIndices
        [{ app_name := "a".data, connection := true, role := kSlave,
           roundtrip_time := 5, detected_sync_slaves := [] },
         { app_name := "b".data, connection := true, role := kMaster,
           roundtrip_time := 3, detected_sync_slaves := [] }]) ∧
       [1, 0].Pairwise (fun a b =>
         rttAt [{ app_name := "a".data, connection := true, role := kSlave,
                  roundtrip_time := 5, detected_sync_slaves := [] },
                { app_name := "b".data, connection := true, role := kMaster,
                  roundtrip_time := 3, detected_sync_slaves := [] }] a
           ≤ rttAt [{ app_name := "a".data, connection := true, role := kSlave,
                      roundtrip_time := 5, detected_sync_slaves := [] },
                    { app_name := "b".data, connection := true, role := kMaster,
                      roundtrip_time := 3, detected_sync_slaves := [] }] b)) := by
  have hchain : List.Chain'
      (fun a b =>
        ¬ rttAt (promoteSyncSlaves
            [{ app_name := "a".data, connection := true, role := kSlave,
               roundtrip_time := 5, detected_sync_slaves := [] },
             { app_name := "b".data, connection := true, role := kMaster,
               roundtrip_time := 3, detected_sync_slaves := [] }]) b
          < rttAt (promoteSyncSlaves
            [{ app_name := "a".data, connection := true, role := kSlave,
               roundtrip_time := 5, detected_sync_slaves := [] },
             { app_name := "b".data, connection := true, role := kMaster,
               roundtrip_time := 3, detected_sync_slaves := [] }]) a)
      [1, 0] := by
    simp only [List.chain'_cons, List.chain'_singleton, and_true]
    decide
  exact ⟨⟨by decide, hchain⟩,
    c2_alive_by_rtt_sorted _ [1, 0] ⟨by decide, hchain⟩⟩

/-! ## Claim C7 -/

/-- C7: every index appearing in a published view — the rtt-sorted alive list
or any bucket of `dsn_indices_by_type` — has a non-`kNone` role in the
post-promotion host states at publication time. -/
theorem c7_published_roles_not_none :
    ∀ (states : List HostState) (out : List Nat) (r : ClusterHostType) (i : Nat),
      DiscoverySortSpec states out →
      (i ∈ out ∨ i ∈ dsnIndicesByType (promoteSyncSlaves states) out r) →
      roleAt (promoteSyncSlaves states) i ≠ kNone := by
  intro states out r i hsort hmem
  have hout : i ∈ out := by
    rcases hmem with hmem | hmem
    · exact hmem
    · exact (dsnIndicesByType_sublist (promoteSyncSlaves states) r out).mem hmem
  have halive : i ∈ aliveIndices states := hsort.1.mem_iff.mp hout
  exact roleAt_promote_ne_none (mem_aliveIndices.mp halive)

/-- C7 witness: one alive slave published in the alive list and the slave
bucket keeps a non-`kNone` role. -/
theorem c7_published_roles_not_none_witness :
    DiscoverySortSpec
        [{ app_name := "a".data, connection := true, role := kSlave,
           roundtrip_time := 5, detected_sync_slaves := [] }] [0] ∧
      (0 ∈ [0] ∨ 0 ∈ dsnIndicesByType
        (promoteSyncSlaves
          [{ app_name := "a".data, connection := true, role := kSlave,
             roundtrip_time := 5, detected_sync_slaves := [] }]) [0] kSlave) ∧
      roleAt (promoteSyncSlaves
        [{ app_name := "a".data, connection := true, role := kSlave,
           roundtrip_time := 5, detected_sync_slaves := [] }]) 0 ≠ kNone := by
  have hchain : List.Chain'
      (fun a b =>
        ¬ rttAt (promoteSyncSlaves
            [{ app_name := "a".data, connection := true, role := kSlave,
               roundtrip_time := 5, detected_sync_slaves := [] }]) b
          < rttAt (promoteSyncSlaves
            [{ app_name := "a".data, connection := true, role := kSlave,
               roundtrip_time := 5, detected_sync_slaves := [] }]) a)
      [0] := List.chain'_singleton _
  exact ⟨⟨by decide, hchain⟩, Or.inl (by decide),
    c7_published_roles_not_none _ [0] kSlave 0 ⟨by decide, hchain⟩
      (Or.inl (by decide))⟩

/-- If no pre-aggregation state carries `kSyncSlave` (probes only produce
`kNone`/`kSlave`/`kMaster`), then no indexed read does either. -/
theorem roleAt_ne_syncSlave {states : List HostState}
    (h : ∀ s ∈ states, s.role ≠ kSyncSlave) (i : Nat) :
    roleAt states i ≠ kSyncSlave := by
  by_cases hi : i < states.length
  · rw [roleAt, List.getD_eq_getElem?_getD, List.getElem?_eq_getElem hi]
    exact h _ (List.getElem_mem hi)
  · rw [roleAt, getD_default_of_le (Nat.le_of_not_lt hi)]
    exact fun hh => ClusterHostType.noConfusion hh

/-! ## Claim C8 -/

/-- C8: in every published `IndicesByRole` mapping, an index whose
post-promotion role is `kSyncSlave` appears exactly once in the `kSyncSlave`
bucket and exactly once in the `kSlave` bucket, and every bucket is a sublist
of the rtt-sorted alive list, hence preserves ascending-rtt order. -/
theorem c8_sync_slave_in_both_buckets :
    ∀ (states : List HostState) (out : List Nat) (i : Nat),
      DiscoverySortSpec states out →
      roleAt (promoteSyncSlaves states) i = kSyncSlave →
      (dsnIndicesByType (promoteSyncSlaves states) out kSyncSlave).count i = 1 ∧
      (dsnIndicesByType (promoteSyncSlaves states) out kSlave).count i = 1 ∧
      ∀ r, (dsnIndicesByType (promoteSyncSlaves states) out r).Sublist out ∧
        (dsnIndicesByType (promoteSyncSlaves states) out r).Pairwise
          (fun a b => rttAt states a ≤ rttAt states b) := by
  intro states out i hsort hrole
  have halive : roleAt states i ≠ kNone := by
    rcases roleAt_promote_cases states i with hc | ⟨_, hne⟩
    · rw [hc] at hrole
      rw [hrole]
      exact fun hh => ClusterHostType.noConfusion hh
    · exact hne
  have hcount_out : out.count i = 1 := by
    rw [hsort.1.count_eq]
    exact List.count_eq_one_of_mem (nodup_aliveIndices states)
      (mem_aliveIndices.mpr halive)
  refine ⟨?_, ?_, fun r => ⟨dsnIndicesByType_sublist _ r out, ?_⟩⟩
  · rw [dsnIndicesByType_count, if_pos (Or.inl hrole), hcount_out]
  · rw [dsnIndicesByType_count, if_pos (Or.inr ⟨hrole, rfl⟩), hcount_out]
  · exact (sortSpec_pairwise hsort).sublist (dsnIndicesByType_sublist _ r out)

/-- C8 witness: a master at rtt 3 listing the slave at rtt 5 as synchronous;
the promoted index 1 is counted once in each of the two buckets. -/
theorem c8_sync_slave_in_both_buckets_witness :
    DiscoverySortSpec
        [{ app_name := "m".data, connection := true, role := kMaster,
           roundtrip_time := 3, detected_sync_slaves := ["s".data] },
         { app_name := "s".data, connection := true, role := kSlave,
           roundtrip_time := 5, detected_sync_slaves := [] }]
        [0, 1] ∧
      roleAt (promoteSyncSlaves
        [{ app_name := "m".data, connection := true, role := kMaster,
           roundtrip_time := 3, detected_sync_slaves := ["s".data] },
         { app_name := "s".data, connection := true, role := kSlave,
           roundtrip_time := 5, detected_sync_slaves := [] }]) 1 = kSyncSlave ∧
      (dsnIndicesByType (promoteSyncSlaves
        [{ app_name := "m".data, connection := true, role := kMaster,
           roundtrip_time := 3, detected_sync_slaves := ["s".data] },
         { app_name := "s".data, connection := true, role := kSlave,
           roundtrip_time := 5, detected_sync_slaves := [] }]) [0, 1] kSyncSlave).count 1 = 1 ∧
      (dsnIndicesByType (promoteSyncSlaves
        [{ app_name := "m".data, connection := true, role := kMaster,
           roundtrip_time := 3, detected_sync_slaves := ["s".data] },
         { app_name := "s".data, connection := true, role := kSlave,
           roundtrip_time := 5, detected_sync_slaves := [] }]) [0, 1] kSlave).count 1 = 1 := by
  have hchain : List.Chain'
      (fun a b =>
        ¬ rttAt (promoteSyncSlaves
            [{ app_name := "m".data, connection := true, role := kMaster,
               roundtrip_time := 3, detected_sync_slaves := ["s".data] },
             { app_name := "s".data, connection := true, role := kSlave,
               roundtrip_time := 5, detected_sync_slaves := [] }]) b
          < rttAt (promoteSyncSlaves
            [{ app_name := "m".data, connection := true, role := kMaster,
               roundtrip_time := 3, detected_sync_slaves := ["s".data] },
             { app_name := "s".data, connection := true, role := kSlave,
               roundtrip_time := 5, detected_sync_slaves := [] }]) a)
      [0, 1] := by
    simp only [List.chain'_cons, List.chain'_singleton, and_true]
    decide
  have hmain := c8_sync_slave_in_both_buckets
    [{ app_name := "m".data, connection := true, role := kMaster,
       roundtrip_time := 3, detected_sync_slaves := ["s".data] },
     { app_name := "s".data, connection := true, role := kSlave,
       roundtrip_time := 5, detected_sync_slaves := [] }]
    [0, 1] 1 ⟨by decide, hchain⟩ (by decide)
  exact ⟨⟨by decide, hchain⟩, by decide, hmain.1, hmain.2.1⟩

/-! ## Claim C5 -/

/-- C5, counterexample: the promotion pass overwrites any alive matching
host's role with `kSyncSlave`, including a host that probed as `kMaster`:
a master listing its own `app_name` among its sync-standby names is promoted
from `kMaster` to `kSyncSlave`, so promotion is not restricted to hosts that
probed as `kSlave`. -/
theorem c5_counterexample :
    roleAt [{ app_name := "a".data, connection := true, role := kMaster,
              roundtrip_time := 5, detected_sync_slaves := ["a".data] }] 0
        = kMaster ∧
      roleAt (promoteSyncSlaves
        [{ app_name := "a".data, connection := true, role := kMaster,
           roundtrip_time := 5, detected_sync_slaves := ["a".data] }]) 0
        = kSyncSlave := by decide

/-- C5 (amended): assuming probe outputs (no pre-aggregation `kSyncSlave`),
after the aggregation pass a host carries role `kSyncSlave` iff it was alive,
a master was located (the first one by index), and the host's `app_name`
matches one of that master's `detected_sync_slaves` case-insensitively.
The promotion overwrites whatever alive role the host had, so hosts that
probed as `kMaster` can also end up promoted — not only slaves. -/
theorem c5_sync_slave_promotion :
    ∀ (states : List HostState) (i : Nat),
      (∀ s ∈ states, s.role ≠ kSyncSlave) →
      (roleAt (promoteSyncSlaves states) i = kSyncSlave ↔
        roleAt states i ≠ kNone ∧
          ∃ m, findMaster states = some m ∧
            ∃ nm ∈ m.detected_sync_slaves,
              strIcaseEq (appAt states i) nm = true) := by
  intro states i hprobe
  cases hm : findMaster states with
  | none =>
    have hid : promoteSyncSlaves states = states := by
      simp [promoteSyncSlaves, hm]
    rw [hid]
    constructor
    · intro h
      exact absurd h (roleAt_ne_syncSlave hprobe i)
    · rintro ⟨-, m, hsome, -⟩
      cases hsome
  | some m =>
    by_cases hemp : m.detected_sync_slaves.isEmpty
    · have hid : promoteSyncSlaves states = states := by
        simp [promoteSyncSlaves, hm, hemp]
      rw [hid]
      constructor
      · intro h
        exact absurd h (roleAt_ne_syncSlave hprobe i)
      · rintro ⟨-, m', hsome, nm, hnm, -⟩
        cases hsome
        rw [List.isEmpty_iff.mp hemp] at hnm
        cases hnm
    · by_cases hi : i < states.length
      · have hmap : roleAt (promoteSyncSlaves states) i
            = (if (states.getD i (initialHostState [])).role != kNone
                  && m.detected_sync_slaves.any
                    (fun nm => strIcaseEq
                      (states.getD i (initialHostState [])).app_name nm)
               then kSyncSlave
               else (states.getD i (initialHostState [])).role) := by
          simp only [promoteSyncSlaves, hm]
          rw [if_neg hemp, roleAt, getD_map_of_lt hi (initialHostState [])]
          split <;> rfl
        rw [hmap]
        constructor
        · intro h
          by_cases hc : ((states.getD i (initialHostState [])).role != kNone
              && m.detected_sync_slaves.any
                (fun nm => strIcaseEq
                  (states.getD i (initialHostState [])).app_name nm)) = true
          · have hand := (Bool.and_eq_true _ _).mp hc
            refine ⟨by simpa [roleAt] using hand.1, m, rfl, ?_⟩
            have hany := List.any_eq_true.mp hand.2
            obtain ⟨nm, hnm, hq⟩ := hany
            exact ⟨nm, hnm, by simpa [appAt] using hq⟩
          · rw [if_neg hc] at h
            exact absurd h (roleAt_ne_syncSlave hprobe i)
        · rintro ⟨hrole, m', hsome, nm, hnm, hq⟩
          cases hsome
          rw [if_pos]
          rw [Bool.and_eq_true]
          constructor
          · simpa [roleAt] using hrole
          · exact List.any_eq_true.mpr ⟨nm, hnm, by simpa [appAt] using hq⟩
      · have hge := Nat.le_of_not_lt hi
        have h1 : roleAt (promoteSyncSlaves states) i = kNone := by
          rw [roleAt, getD_default_of_le (by rw [length_promote]; exact hge)]
          rfl
        have h2 : roleAt states i = kNone := by
          rw [roleAt, getD_default_of_le hge]
          rfl
        rw [h1]
        constructor
        · intro h
          exact absurd h (fun hh => ClusterHostType.noConfusion hh)
        · rintro ⟨hrole, -⟩
          exact absurd h2 hrole

/-- C5 witness: a master listing `"S"`; the slave named `"s"` (case differs)
is promoted, and the characterization holds at its index. -/
theorem c5_sync_slave_promotion_witness :
    (∀ s ∈ [{ app_name := "m".data, connection := true, role := kMaster,
              roundtrip_time := 3, detected_sync_slaves := ["S".data] },
            { app_name := "s".data, connection := true, role := kSlave,
              roundtrip_time := 5, detected_sync_slaves := [] }],
        HostState.role s ≠ kSyncSlave) ∧
      (roleAt (promoteSyncSlaves
          [{ app_name := "m".data, connection := true, role := kMaster,
             roundtrip_time := 3, detected_sync_slaves := ["S".data] },
           { app_name := "s".data, connection := true, role := kSlave,
             roundtrip_time := 5, detected_sync_slaves := [] }]) 1 = kSyncSlave ↔
        roleAt [{ app_name := "m".data, connection := true, role := kMaster,
                  roundtrip_time := 3, detected_sync_slaves := ["S".data] },
                { app_name := "s".data, connection := true, role := kSlave,
                  roundtrip_time := 5, detected_sync_slaves := [] }] 1 ≠ kNone ∧
          ∃ m, findMaster
              [{ app_name := "m".data, connection := true, role := kMaster,
                 roundtrip_time := 3, detected_sync_slaves := ["S".data] },
               { app_name := "s".data, connection := true, role := kSlave,
                 roundtrip_time := 5, detected_sync_slaves := [] }] = some m ∧
            ∃ nm ∈ m.detected_sync_slaves,
              strIcaseEq (appAt
                [{ app_name := "m".data, connection := true, role := kMaster,
                   roundtrip_time := 3, detected_sync_slaves := ["S".data] },
                 { app_name := "s".data, connection := true, role := kSlave,
                   roundtrip_time := 5, detected_sync_slaves := [] }] 1) nm
                = true) :=
  ⟨by decide, c5_sync_slave_promotion _ 1 (by decide)⟩

/-! ## Claim C10 -/

theorem set_getD_self {α : Type} :
    ∀ (l : List α) (j : Nat) (d : α), j < l.length → l.set j (l.getD j d) = l
  | _ :: _, 0, _, _ => by simp
  | a :: rest, j + 1, d, h => by
    simp only [List.set_cons_succ, List.getD_cons_succ]
    rw [set_getD_self rest j d (by simpa using h)]

/-- The search `std::find_if` is insensitive to overwriting a position strictly after a
position that already satisfies the predicate. -/
theorem find?_set_later {p : HostState → Bool} :
    ∀ (l : List HostState) (k j : Nat) (x : HostState),
      k < j → k < l.length → p (l.getD k (initialHostState [])) = true →
      (l.set j x).find? p = l.find? p
  | [], k, _, _, _, hk, _ => by simp at hk
  | a :: rest, k, 0, x, hkj, _, _ => by omega
  | a :: rest, k, j + 1, x, hkj, hk, hp => by
    rw [List.set_cons_succ]
    by_cases hpa : p a
    · rw [List.find?_cons_of_pos _ hpa, List.find?_cons_of_pos _ hpa]
    · rw [List.find?_cons_of_neg _ hpa, List.find?_cons_of_neg _ hpa]
      cases k with
      | zero => exact absurd hp (by simpa using hpa)
      | succ k' =>
        exact find?_set_later rest k' j x (by omega) (by simpa using hk)
          (by simpa using hp)

/-- The search `std::find_if` returns the element at the least index satisfying the
predicate. -/
theorem findMaster_eq_first :
    ∀ (states : List HostState) (i : Nat), i < states.length →
      roleAt states i = kMaster → (∀ k, k < i → roleAt states k ≠ kMaster) →
      findMaster states = some (states.getD i (initialHostState []))
  | [], i, hi, _, _ => by simp at hi
  | s :: rest, 0, _, hrole, _ => by
    have hs : s.role = kMaster := by simpa [roleAt] using hrole
    simp [findMaster, List.find?_cons_of_pos, hs]
  | s :: rest, i + 1, hi, hrole, hmin => by
    have hs : s.role ≠ kMaster := by
      have := hmin 0 (Nat.succ_pos i)
      simpa [roleAt] using this
    have hrec := findMaster_eq_first rest i (by simpa using hi)
      (by simpa [roleAt] using hrole)
      (fun k hk => by
        have := hmin (k + 1) (by omega)
        simpa [roleAt] using this)
    rw [roleAt] at hrole
    simp only [findMaster] at hrec ⊢
    rw [List.find?_cons_of_neg _ (by simpa using hs), hrec]
    simp

/-- Overwriting only `detected_sync_slaves` at position `j` does not change
any `F`-image of the array, for `F` insensitive to that field. -/
theorem map_set_sync_irrelevant {β : Type} (F : HostState → β)
    (hF : ∀ s repl, F { s with detected_sync_slaves := repl } = F s)
    {states : List HostState} {j : Nat} (hj : j < states.length)
    (repl : List (List Char)) :
    (states.set j { states.getD j (initialHostState []) with
        detected_sync_slaves := repl }).map F
      = states.map F := by
  rw [List.map_set, hF]
  rw [show F (states.getD j (initialHostState []))
      = (states.map F).getD j (F (initialHostState []))
    from (getD_map_of_lt hj _ _).symm]
  exact set_getD_self _ _ _ (by simpa using hj)

/-- C10: the sync-slave attribution pass uses only the `detected_sync_slaves`
of the master with the lowest index: (1) the `std::find_if` locating the
master returns the state at the least index whose role is `kMaster`; (2)
replacing the `detected_sync_slaves` of any host at a strictly larger index
than some master (in particular, of any other master) leaves the promoted
roles of the whole cycle unchanged. -/
theorem c10_first_master_only :
    (∀ (states : List HostState) (i : Nat), i < states.length →
        roleAt states i = kMaster → (∀ k, k < i → roleAt states k ≠ kMaster) →
        findMaster states = some (states.getD i (initialHostState []))) ∧
    (∀ (states : List HostState) (i j : Nat) (repl : List (List Char)),
        i < j → j < states.length → roleAt states i = kMaster →
        (promoteSyncSlaves (states.set j
            { states.getD j (initialHostState []) with
                detected_sync_slaves := repl })).map (fun s => s.role)
          = (promoteSyncSlaves states).map (fun s => s.role)) := by
  constructor
  · exact findMaster_eq_first
  · intro states i j repl hij hj hi
    have hlen_i : i < states.length := Nat.lt_trans hij hj
    have hpi : (fun s => s.role == kMaster)
        (states.getD i (initialHostState [])) = true := by
      simp only [roleAt] at hi
      exact beq_iff_eq.mpr hi
    have hfm : findMaster (states.set j
        { states.getD j (initialHostState []) with
            detected_sync_slaves := repl }) = findMaster states :=
      find?_set_later states i j _ hij hlen_i hpi
    cases hm : findMaster states with
    | none =>
      exfalso
      have hmem : states.getD i (initialHostState []) ∈ states := by
        rw [List.getD_eq_getElem?_getD, List.getElem?_eq_getElem hlen_i]
        exact List.getElem_mem hlen_i
      have hsome : (states.find? (fun s => s.role == kMaster)).isSome :=
        List.find?_isSome.mpr ⟨_, hmem, hpi⟩
      rw [show states.find? (fun s => s.role == kMaster) = findMaster states
        from rfl, hm] at hsome
      cases hsome
    | some m =>
      have hfm' : findMaster (states.set j
          { states.getD j (initialHostState []) with
              detected_sync_slaves := repl }) = some m := hfm.trans hm
      by_cases hemp : m.detected_sync_slaves.isEmpty
      · simp only [promoteSyncSlaves, hm, hfm', hemp, if_true, reduceIte]
        exact map_set_sync_irrelevant (fun s => s.role) (fun _ _ => rfl) hj repl
      · simp only [promoteSyncSlaves, hm, hfm']
        rw [if_neg hemp, if_neg hemp, List.map_map, List.map_map]
        refine map_set_sync_irrelevant _ (fun s r => ?_) hj repl
        show (if ((({ s with detected_sync_slaves := r } : HostState)).role != kNone
              && m.detected_sync_slaves.any
                (fun nm => strIcaseEq ({ s with detected_sync_slaves := r }
                  : HostState).app_name nm)) = true
            then { ({ s with detected_sync_slaves := r } : HostState) with
                role := kSyncSlave }
            else { s with detected_sync_slaves := r }).role
          = (if (s.role != kNone && m.detected_sync_slaves.any
                (fun nm => strIcaseEq s.app_name nm)) = true
            then { s with role := kSyncSlave } else s).role
        by_cases hc : (s.role != kNone && m.detected_sync_slaves.any
            (fun nm => strIcaseEq s.app_name nm)) = true
        · simp [hc]
        · simp [hc]

/-- C10 witness: two masters at indices 0 and 2; replacing the sync list of
the higher-index master does not change any promoted role, and `find_if`
returns the index-0 master. -/
theorem c10_first_master_only_witness :
    (0 < ([{ app_name := "m0".data, connection := true, role := kMaster,
             roundtrip_time := 3, detected_sync_slaves := ["s".data] },
           { app_name := "s".data, connection := true, role := kSlave,
             roundtrip_time := 5, detected_sync_slaves := [] },
           { app_name := "m2".data, connection := true, role := kMaster,
             roundtrip_time := 7, detected_sync_slaves := ["m0".data] }]
          : List HostState).length ∧
      roleAt [{ app_name := "m0".data, connection := true, role := kMaster,
                roundtrip_time := 3, detected_sync_slaves := ["s".data] },
              { app_name := "s".data, connection := true, role := kSlave,
                roundtrip_time := 5, detected_sync_slaves := [] },
              { app_name := "m2".data, connection := true, role := kMaster,
                roundtrip_time := 7, detected_sync_slaves := ["m0".data] }] 0
        = kMaster) ∧
    findMaster [{ app_name := "m0".data, connection := true, role := kMaster,
                  roundtrip_time := 3, detected_sync_slaves := ["s".data] },
                { app_name := "s".data, connection := true, role := kSlave,
                  roundtrip_time := 5, detected_sync_slaves := [] },
                { app_name := "m2".data, connection := true, role := kMaster,
                  roundtrip_time := 7, detected_sync_slaves := ["m0".data] }]
      = some { app_name := "m0".data, connection := true, role := kMaster,
               roundtrip_time := 3, detected_sync_slaves := ["s".data] } ∧
    (promoteSyncSlaves
        ([{ app_name := "m0".data, connection := true, role := kMaster,
            roundtrip_time := 3, detected_sync_slaves := ["s".data] },
          { app_name := "s".data, connection := true, role := kSlave,
            roundtrip_time := 5, detected_sync_slaves := [] },
          { app_name := "m2".data, connection := true, role := kMaster,
            roundtrip_time := 7, detected_sync_slaves := ["m0".data] }].set 2
          { app_name := "m2".data, connection := true, role := kMaster,
            roundtrip_time := 7,
            detected_sync_slaves := ["zzz".data] })).map (fun s => s.role)
      = (promoteSyncSlaves
          [{ app_name := "m0".data, connection := true, role := kMaster,
             roundtrip_time := 3, detected_sync_slaves := ["s".data] },
           { app_name := "s".data, connection := true, role := kSlave,
             roundtrip_time := 5, detected_sync_slaves := [] },
           { app_name := "m2".data, connection := true, role := kMaster,
             roundtrip_time := 7, detected_sync_slaves := ["m0".data] }]).map
          (fun s => s.role) :=
  ⟨⟨by decide, by decide⟩,
    c10_first_master_only.1 _ 0 (by decide) (by decide) (by omega),
    c10_first_master_only.2 _ 0 2 ["zzz".data] (by decide) (by decide)
      (by decide)⟩

/-! ## Probe lemmas -/

/-- Every run of the guarded `try` block either fires the reset guard (state
becomes the `None` tuple; the escaping exception, if any, is not a
`ConnectionError`) or releases it (no exception, connection kept, fresh role
and rtt, `app_name` untouched). -/
theorem runCheckConnected_dichotomy (st : HostState) (w : ProbeWorld)
    (c0 : List CallRec) :
    ((runCheckConnected st w c0).state = resetState st ∧
      ((runCheckConnected st w c0).thrown = none ∨
        (runCheckConnected st w c0).thrown = some CppExc.otherError)) ∨
    ((runCheckConnected st w c0).thrown = none ∧
      (runCheckConnected st w c0).state.connection = st.connection ∧
      (runCheckConnected st w c0).state.role ≠ kNone ∧
      (runCheckConnected st w c0).state.roundtrip_time = w.roRtt ∧
      (runCheckConnected st w c0).state.app_name = st.app_name) := by
  rcases hcr : w.checkRoRes with e | ro
  · refine Or.inl ⟨by simp [runCheckConnected, hcr], ?_⟩
    rcases e <;> simp [runCheckConnected, hcr]
  · by_cases hro : ro = true
    · refine Or.inr ?_
      simp [runCheckConnected, hcr, hro]
    · have hro' : ro = false := by simpa using hro
      rcases hsr : w.showRes with e | names
      · refine Or.inl ⟨by simp [runCheckConnected, hcr, hro', hsr], ?_⟩
        rcases e <;> simp [runCheckConnected, hcr, hro', hsr]
      · refine Or.inr ?_
        simp [runCheckConnected, hcr, hro', hsr]

/-- The `runCheck` level dichotomy: the reset guard fires (with no escaping
`ConnectionError`) or the probe succeeds wholesale. -/
theorem runCheck_dichotomy (st : HostState) (w : ProbeWorld) :
    ((runCheck st w).state = resetState st ∧
      ((runCheck st w).thrown = none ∨
        (runCheck st w).thrown = some CppExc.otherError)) ∨
    ((runCheck st w).thrown = none ∧
      (runCheck st w).state.connection = true ∧
      (runCheck st w).state.role ≠ kNone ∧
      (runCheck st w).state.roundtrip_time = w.roRtt ∧
      (runCheck st w).state.app_name = st.app_name) := by
  by_cases hc : st.connection = true
  · have heq : runCheck st w = runCheckConnected st w [] := by
      simp [runCheck, hc]
    rw [heq]
    rcases runCheckConnected_dichotomy st w [] with ⟨h1, h2⟩ | h
    · exact Or.inl ⟨h1, h2⟩
    · exact Or.inr ⟨h.1, by rw [h.2.1]; exact hc, h.2.2⟩
  · rcases hcr : w.connectRes with e | u
    · have heq : runCheck st w
          = { state := resetState st
              thrown := if e = .connectionError then none else some e
              calls := [.connect] } := by
        simp [runCheck, hc, hcr]
      rw [heq]
      refine Or.inl ⟨rfl, ?_⟩
      rcases e <;> simp
    · have heq : runCheck st w
          = runCheckConnected { st with connection := true } w [.connect] := by
        simp [runCheck, hc, hcr]
      rw [heq]
      rcases runCheckConnected_dichotomy { st with connection := true } w
          [.connect] with ⟨h1, h2⟩ | h
      · exact Or.inl ⟨h1, h2⟩
      · exact Or.inr ⟨h.1, by rw [h.2.1], h.2.2⟩

/-! ## Claim C4 -/

/-- C4: on every failure-path exit of `RunCheck`, the guarded fields move
together to the `None` tuple (`resetState`: no connection, `role = kNone`,
`rtt = kUnknownRtt`, empty `detected_sync_slaves`, `app_name` untouched);
on a successful probe none of them is reset — the connection is kept, the
role is non-`kNone`, and the rtt is the freshly measured one. -/
theorem c4_failure_resets_all_fields :
    ∀ (st : HostState) (w : ProbeWorld),
      (runCheck st w).state = resetState st ∨
      ((runCheck st w).state.role ≠ kNone ∧
        (runCheck st w).state.connection = true ∧
        (runCheck st w).state.roundtrip_time = w.roRtt ∧
        (runCheck st w).state.app_name = st.app_name ∧
        (runCheck st w).thrown = none) := by
  intro st w
  rcases runCheck_dichotomy st w with ⟨h1, -⟩ | h
  · exact Or.inl h1
  · exact Or.inr ⟨h.2.2.1, h.2.1, h.2.2.2.1, h.2.2.2.2, h.1⟩

/-! ## Claim C3 -/

/-- C3, counterexample: a non-`ConnectionError` thrown during the read-only
check escapes `RunCheck` (only `ConnectionError` is caught), so not every
per-host error is captured inside `RunCheck`. -/
theorem c3_counterexample :
    (runCheck
        { app_name := "a".data, connection := true, role := kSlave,
          roundtrip_time := 5, detected_sync_slaves := [] }
        { connectRes := Except.ok ()
          checkRoRes := Except.error CppExc.otherError
          roRtt := 0
          showRes := Except.ok [] }).thrown = some CppExc.otherError := by
  decide

/-- C3 (amended): `ConnectionError` failures (connect failure, broken
connection, query failure, timeout surfaced as `ConnectionError`) are
captured inside `RunCheck` and never propagate; any other thrown condition
still resets the host state to the `None` tuple via the scope guard but
escapes `RunCheck`.  When every host ends the cycle with `role = kNone`
(e.g. all failures were connection errors), the cycle still publishes both
views — both empty. -/
theorem c3_connection_errors_captured :
    (∀ (st : HostState) (w : ProbeWorld),
        (runCheck st w).thrown ≠ some CppExc.connectionError) ∧
    (∀ (st : HostState) (w : ProbeWorld) (e : CppExc),
        (runCheck st w).thrown = some e →
          (runCheck st w).state = resetState st) ∧
    (∀ states : List HostState, (∀ s ∈ states, s.role = kNone) →
        aliveIndices states = [] ∧
        ∀ out, DiscoverySortSpec states out →
          out = [] ∧
            ∀ r, dsnIndicesByType (promoteSyncSlaves states) out r = []) := by
  refine ⟨?_, ?_, ?_⟩
  · intro st w
    rcases runCheck_dichotomy st w with ⟨-, h2 | h2⟩ | h
    · rw [h2]
      exact fun hh => Option.noConfusion hh
    · rw [h2]
      intro hh
      exact CppExc.noConfusion (Option.some.inj hh)
    · rw [h.1]
      exact fun hh => Option.noConfusion hh
  · intro st w e hthrown
    rcases runCheck_dichotomy st w with ⟨h1, -⟩ | h
    · exact h1
    · rw [h.1] at hthrown
      cases hthrown
  · intro states hall
    have halive : aliveIndices states = [] := by
      rw [aliveIndices, List.filter_eq_nil_iff]
      intro i hi
      rw [List.mem_range] at hi
      have : roleAt states i = kNone := by
        rw [roleAt, List.getD_eq_getElem?_getD, List.getElem?_eq_getElem hi]
        exact hall _ (List.getElem_mem hi)
      simp [this]
    refine ⟨halive, fun out hsort => ?_⟩
    have hout : out = [] := by
      have := hsort.1
      rw [halive] at this
      exact this.eq_nil
    subst hout
    exact ⟨rfl, fun r => rfl⟩

/-- C3 witness: a host whose read-only check throws a non-`ConnectionError`
has its state reset yet the exception escapes; and a cluster where every
probe failed publishes two empty views. -/
theorem c3_connection_errors_captured_witness :
    (runCheck
        { app_name := "a".data, connection := true, role := kSlave,
          roundtrip_time := 5, detected_sync_slaves := [] }
        { connectRes := Except.ok ()
          checkRoRes := Except.error CppExc.otherError
          roRtt := 0
          showRes := Except.ok [] }).thrown = some CppExc.otherError ∧
    (runCheck
        { app_name := "a".data, connection := true, role := kSlave,
          roundtrip_time := 5, detected_sync_slaves := [] }
        { connectRes := Except.ok ()
          checkRoRes := Except.error CppExc.otherError
          roRtt := 0
          showRes := Except.ok [] }).state
      = resetState
        { app_name := "a".data, connection := true, role := kSlave,
          roundtrip_time := 5, detected_sync_slaves := [] } ∧
    (∀ s ∈ [initialHostState "a".data], HostState.role s = kNone) ∧
    aliveIndices [initialHostState "a".data] = [] ∧
    ([] : List Nat) = [] ∧
    ∀ r, dsnIndicesByType (promoteSyncSlaves [initialHostState "a".data]) [] r
      = [] := by
  have hpub := c3_connection_errors_captured.2.2 [initialHostState "a".data]
    (by decide)
  have hsort : DiscoverySortSpec [initialHostState "a".data] [] := by
    refine ⟨?_, List.chain'_nil⟩
    rw [hpub.1]
  exact ⟨by decide,
    c3_connection_errors_captured.2.1 _ _ CppExc.otherError (by decide),
    by decide, hpub.1, (hpub.2 [] hsort).1, (hpub.2 [] hsort).2⟩

/-! ## Claim C6 -/

/-- C6, counterexample: on a successful master probe from scratch, the
call trace is `Connect` (made *before* any probe deadline exists, governed
only by the connection settings), then `CheckReadOnly` with the deadline made
from `kCheckTimeout`, then the `SHOW synchronous_standby_names` `Execute`
issued with *no* deadline argument at all — so the single 1-second deadline
does not govern connection establishment nor the `SHOW` query. -/
theorem c6_counterexample :
    (runCheck
        { app_name := "a".data, connection := false, role := kNone,
          roundtrip_time := -1, detected_sync_slaves := [] }
        { connectRes := Except.ok ()
          checkRoRes := Except.ok false
          roRtt := 7
          showRes := Except.ok "s1".data }).calls
      = [CallRec.connect,
         CallRec.checkReadOnly (some kCheckTimeoutUsec),
         CallRec.executeShow none] := by decide

/-- C6 (amended): in every probe, the `kCheckTimeout`-derived deadline is
created after connection establishment and passed only to `CheckReadOnly`
(exactly once, if at all); `Connect` is issued before the deadline exists and
the `SHOW` `Execute` carries no deadline argument.  The complete set of
possible call traces of `RunCheck`: -/
theorem c6_deadline_only_on_read_only_check :
    ∀ (st : HostState) (w : ProbeWorld),
      (runCheck st w).calls ∈ [
        [CallRec.connect],
        [CallRec.connect, CallRec.checkReadOnly (some kCheckTimeoutUsec)],
        [CallRec.connect, CallRec.checkReadOnly (some kCheckTimeoutUsec),
         CallRec.executeShow none],
        [CallRec.checkReadOnly (some kCheckTimeoutUsec)],
        [CallRec.checkReadOnly (some kCheckTimeoutUsec),
         CallRec.executeShow none]] := by
  intro st w
  have hconn : ∀ (st' : HostState) (c0 : List CallRec),
      (runCheckConnected st' w c0).calls
        = c0 ++ [CallRec.checkReadOnly (some kCheckTimeoutUsec)] ∨
      (runCheckConnected st' w c0).calls
        = c0 ++ [CallRec.checkReadOnly (some kCheckTimeoutUsec),
                 CallRec.executeShow none] := by
    intro st' c0
    rcases hcr : w.checkRoRes with e | ro
    · exact Or.inl (by simp [runCheckConnected, hcr])
    · by_cases hro : ro = true
      · exact Or.inl (by simp [runCheckConnected, hcr, hro])
      · have hro' : ro = false := by simpa using hro
        rcases hsr : w.showRes with e | names
        · exact Or.inr (by simp [runCheckConnected, hcr, hro', hsr])
        · exact Or.inr (by simp [runCheckConnected, hcr, hro', hsr])
  by_cases hc : st.connection = true
  · have heq : runCheck st w = runCheckConnected st w [] := by
      simp [runCheck, hc]
    rw [heq]
    rcases hconn st [] with h | h <;> rw [h] <;> simp
  · rcases hcr : w.connectRes with e | u
    · have heq : (runCheck st w).calls = [CallRec.connect] := by
        simp [runCheck, hc, hcr]
      rw [heq]
      simp
    · have heq : runCheck st w
          = runCheckConnected { st with connection := true } w
              [CallRec.connect] := by
        simp [runCheck, hc, hcr]
      rw [heq]
      rcases hconn { st with connection := true } [CallRec.connect] with h | h <;>
        rw [h] <;> simp

end QuorumCommit
